import Mathlib

/-!
Shallow embedding of the flight-delay tool (`src/streamlit_delay_app.py`) and
verification of the specification's claims about it.

Strings are modelled as `List Char` (Python `str`), dataframes as lists of
records, and the floating-point percentages as exact rationals `ℚ`.  A
division whose denominator is zero, which in the Python code yields a
non-finite float (NaN or infinity) rather than raising, is modelled by
`Option ℚ` with `none` standing for the non-finite outcome.
-/

attribute [local semireducible] Rat.mul Rat.add Rat.inv Rat.sub

namespace FlightDelay

/-- Python `int(x)` applied to a (real-valued) number: truncation toward zero.
For a rational `q = num/den` (`den > 0`) this is `num.ediv den` when `q ≥ 0`
and `-((-num).ediv den)` otherwise. -/
def pyInt (q : ℚ) : ℤ :=
  if 0 ≤ q.num then q.num / (q.den : ℤ) else -((-q.num) / (q.den : ℤ))

/-- Floor of a rational, computed from its numerator and denominator
(`Int` division is Euclidean division, which is floor division for the
positive denominator). -/
def ratFloor (q : ℚ) : ℤ := q.num / (q.den : ℤ)

/-- Round-half-to-even of a rational to an integer, the tie-breaking rule of
Python's `round`. -/
def roundHalfEven (q : ℚ) : ℤ :=
  let n := ratFloor q
  let r := q - (n : ℚ)
  if r < 1/2 then n
  else if 1/2 < r then n + 1
  else if n % 2 = 0 then n else n + 1

/-- Python `round(x, 2)`: round to two decimal places, ties to even. -/
def pyRound2 (q : ℚ) : ℚ := (roundHalfEven (q * 100) : ℚ) / 100

/-- Python `str.lower()`, modelled on the ASCII range (the override-table keys
are all ASCII). -/
def pyLower (s : List Char) : List Char := s.map Char.toLower

/-- Python string comparison `<`: lexicographic on code points. -/
def strLt : List Char → List Char → Bool
  | [], [] => false
  | [], _ :: _ => true
  | _ :: _, [] => false
  | c :: cs, d :: ds => if c < d then true else if d < c then false else strLt cs ds

/-! ### difflib: `SequenceMatcher` (no junk: `isjunk=None` and short strings,
so the junk and autojunk heuristics are vacuous) and `get_close_matches` -/

/-- The length-`k` slice of `a` at `i` equals the length-`k` slice of `b` at
`j`, with both slices inside the windows ending at `ahi` resp. `bhi`. -/
def validBlock (a b : List Char) (ahi bhi i j k : Nat) : Bool :=
  decide (i + k ≤ ahi) && decide (j + k ≤ bhi) &&
    decide ((a.drop i).take k = (b.drop j).take k)

/-- Some matching block of size `k` exists inside the window
`[alo, ahi) × [blo, bhi)`. -/
def existsBlockOfSize (a b : List Char) (alo ahi blo bhi k : Nat) : Bool :=
  (List.range' alo (ahi - alo)).any fun i =>
    (List.range' blo (bhi - blo)).any fun j => validBlock a b ahi bhi i j k

/-- Size of the longest matching block inside the window, as found by
`SequenceMatcher.find_longest_match` (0 when the window holds no match). -/
def bestSize (a b : List Char) (alo ahi blo bhi : Nat) : Nat :=
  Nat.findGreatest (fun k => existsBlockOfSize a b alo ahi blo bhi k = true)
    (min (ahi - alo) (bhi - blo))

/-- Start position in `a` of the longest matching block: among all maximal
blocks, `find_longest_match` returns the one starting earliest in `a`. -/
def bestI (a b : List Char) (alo ahi blo bhi k : Nat) : Nat :=
  ((List.range' alo (ahi - alo)).find? fun i =>
    (List.range' blo (bhi - blo)).any fun j => validBlock a b ahi bhi i j k).getD alo

/-- Start position in `b` of the longest matching block: given the chosen `i`,
the block starting earliest in `b`. -/
def bestJ (a b : List Char) (blo bhi ahi i k : Nat) : Nat :=
  ((List.range' blo (bhi - blo)).find? fun j => validBlock a b ahi bhi i j k).getD blo

/-- Total size of the matching blocks of `SequenceMatcher.get_matching_blocks`
restricted to a window: take the longest block, then recurse on the windows to
its left and to its right.  The fuel argument only bounds the recursion depth:
each recursive call shrinks `(ahi - alo) + (bhi - blo)` by at least two while
the fuel shrinks by one, so starting from `a.length + b.length` the fuel never
runs out. -/
def matchSumAux (a b : List Char) : Nat → Nat → Nat → Nat → Nat → Nat
  | 0, _, _, _, _ => 0
  | fuel + 1, alo, ahi, blo, bhi =>
    let k := bestSize a b alo ahi blo bhi
    if k = 0 then 0
    else
      let i := bestI a b alo ahi blo bhi k
      let j := bestJ a b blo bhi ahi i k
      matchSumAux a b fuel alo i blo j + k + matchSumAux a b fuel (i + k) ahi (j + k) bhi

/-- Total matched characters between `a` and `b` (the `M` of
`SequenceMatcher.ratio() = 2*M/T`). -/
def matchSum (a b : List Char) : Nat :=
  matchSumAux a b (a.length + b.length) 0 a.length 0 b.length

/-- Multiset-intersection size: the matches counted by
`SequenceMatcher.quick_ratio`. -/
def interLen (xs ys : List Char) : Nat :=
  Multiset.card ((xs : Multiset Char) ∩ (ys : Multiset Char))

/-- difflib `_calculate_ratio(matches, length)`. -/
def ratioCalc (m t : Nat) : ℚ := if t = 0 then 1 else 2 * (m : ℚ) / (t : ℚ)

/-- `SequenceMatcher(None, a, b).ratio()`. -/
def ratioScore (a b : List Char) : ℚ := ratioCalc (matchSum a b) (a.length + b.length)

/-- `SequenceMatcher.quick_ratio()`: upper bound on `ratio` from character
multiplicities. -/
def quickRatioScore (a b : List Char) : ℚ :=
  ratioCalc (interLen a b) (a.length + b.length)

/-- `SequenceMatcher.real_quick_ratio()`: upper bound on `ratio` from lengths. -/
def realQuickRatioScore (a b : List Char) : ℚ :=
  ratioCalc (min a.length b.length) (a.length + b.length)

/-- Python tuple comparison `x > y` on `(score, string)` pairs, as used by
`heapq.nlargest` inside `get_close_matches`. -/
def pairGt (x y : ℚ × List Char) : Bool :=
  decide (y.1 < x.1) || (decide (y.1 = x.1) && strLt y.2 x.2)

/-- Scan for the maximum, keeping the current element on ties: the element
`heapq.nlargest(1, ·)` returns. -/
def maxFrom (best : ℚ × List Char) : List (ℚ × List Char) → ℚ × List Char
  | [] => best
  | x :: xs => maxFrom (if pairGt x best then x else best) xs

/-- `heapq.nlargest(1, l)` as an `Option`. -/
def pyMax? : List (ℚ × List Char) → Option (ℚ × List Char)
  | [] => none
  | x :: xs => some (maxFrom x xs)

/-- `difflib.get_close_matches(word, possibilities, n=1, cutoff)`: keep the
candidates whose three ratios all reach the cutoff, then take the largest
`(score, candidate)` pair.  In `get_close_matches` the candidate is `seq1`
and the word `seq2`, hence the argument order `x word` below. -/
def get_close_matches1 (word : List Char) (possibilities : List (List Char))
    (cutoff : ℚ) : Option (List Char) :=
  (pyMax? (possibilities.filterMap fun x =>
    if cutoff ≤ realQuickRatioScore x word ∧ cutoff ≤ quickRatioScore x word
        ∧ cutoff ≤ ratioScore x word
    then some (ratioScore x word, x) else none)).map Prod.snd

/-! ### The application's identity resolver -/

/-- The curated override table of `fuzzy_match_airline`. -/
def alternate_lookup : List (List Char × List Char) :=
  [ ("southwest".toList, "Southwest Airlines".toList),
    ("delta".toList, "Delta Air Lines Inc.".toList),
    ("american".toList, "American Airlines Inc.".toList),
    ("united".toList, "United Air Lines Inc.".toList),
    ("alaska".toList, "Alaska Airlines Inc.".toList),
    ("spirit".toList, "Spirit Airlines".toList) ]

/-- Python `alternate_lookup[key]` guarded by `key in alternate_lookup`. -/
def lookupAlt (key : List Char) : Option (List Char) :=
  (alternate_lookup.find? fun p => decide (p.1 = key)).map Prod.snd

/-- `fuzzy_match_airline(user_input, airline_list)`: the override table is
consulted on the case-folded input first; otherwise fuzzy matching on the raw
input with cutoff 0.4. -/
def fuzzy_match_airline (user_input : List Char) (airline_list : List (List Char)) :
    Option (List Char) :=
  match lookupAlt (pyLower user_input) with
  | some name => some name
  | none => get_close_matches1 user_input airline_list (2/5)

/-! ### The dataset and the aggregation engine -/

/-- One row of the dataset (the columns the core reads). -/
structure DelayRecord where
  year : ℤ
  month : ℕ
  airport : List Char
  carrier_name : List Char
  arr_flights : ℚ
  arr_del15 : ℚ
  carrier_delay : ℚ
  weather_delay : ℚ
  nas_delay : ℚ
  security_delay : ℚ
  late_aircraft_delay : ℚ
deriving DecidableEq

/-- The shared first step of all three aggregations: keep the rows whose
airport and carrier name both match exactly. -/
def filterRecords (df : List DelayRecord) (airport_code airline_name : List Char) :
    List DelayRecord :=
  df.filter fun r => decide (r.airport = airport_code) && decide (r.carrier_name = airline_name)

/-- The dictionary returned by `get_flight_stats`.  `delay_percent` is `none`
when the Python float is non-finite (division by a zero arrivals sum). -/
structure FlightStats where
  total_arrivals : ℤ
  total_delays : ℤ
  delay_percent : Option ℚ
deriving DecidableEq

/-- `get_flight_stats(df, airport_code, airline_name)`; `none` models the
`None` returned on an empty filtered subset. -/
def get_flight_stats (df : List DelayRecord) (airport_code airline_name : List Char) :
    Option FlightStats :=
  let filtered := filterRecords df airport_code airline_name
  if filtered = [] then none
  else
    let total_arrivals := (filtered.map DelayRecord.arr_flights).sum
    let total_delays := (filtered.map DelayRecord.arr_del15).sum
    some { total_arrivals := pyInt total_arrivals
         , total_delays := pyInt total_delays
         , delay_percent :=
             if total_arrivals = 0 then none
             else some (pyRound2 (total_delays / total_arrivals * 100)) }

/-- The projection `[['year','month','arr_flights','arr_del15']]` taken by
`plot_monthly_delays`. -/
structure MRow where
  year : ℤ
  month : ℕ
  arr_flights : ℚ
  arr_del15 : ℚ
deriving DecidableEq

/-- Project a record to the four columns used by the monthly series. -/
def toMRow (r : DelayRecord) : MRow :=
  { year := r.year, month := r.month, arr_flights := r.arr_flights, arr_del15 := r.arr_del15 }

/-- One row of the average-by-month dataframe.  `year_sum` is the summed
`year` column that `groupby('month').sum()` also produces; the chart ignores
it. -/
structure MonthGroup where
  month : ℕ
  year_sum : ℤ
  arr_flights : ℚ
  arr_del15 : ℚ
  delay_percent : Option ℚ
deriving DecidableEq

/-- One row of the timeline dataframe; `date` is the calendar date built by
`pd.to_datetime(year-month-01)`, with the day fixed at 1. -/
structure TimelineGroup where
  year : ℤ
  month : ℕ
  arr_flights : ℚ
  arr_del15 : ℚ
  delay_percent : Option ℚ
  date : ℤ × ℕ × ℕ
deriving DecidableEq

/-- Non-strict lexicographic order on `(year, month)` keys: the order pandas
sorts grouped keys into. -/
def pairLe (p q : ℤ × ℕ) : Prop := p.1 < q.1 ∨ (p.1 = q.1 ∧ p.2 ≤ q.2)

instance : DecidableRel pairLe := fun p q =>
  inferInstanceAs (Decidable (p.1 < q.1 ∨ (p.1 = q.1 ∧ p.2 ≤ q.2)))

instance : IsTotal (ℤ × ℕ) pairLe :=
  ⟨fun p q => by
    rcases lt_trichotomy p.1 q.1 with h | h | h
    · exact Or.inl (Or.inl h)
    · rcases Nat.le_total p.2 q.2 with h2 | h2
      · exact Or.inl (Or.inr ⟨h, h2⟩)
      · exact Or.inr (Or.inr ⟨h.symm, h2⟩)
    · exact Or.inr (Or.inl h)⟩

instance : IsTrans (ℤ × ℕ) pairLe :=
  ⟨fun p q r hpq hqr => by
    rcases hpq with h | ⟨h, h2⟩ <;> rcases hqr with h' | ⟨h', h2'⟩
    · exact Or.inl (h.trans h')
    · exact Or.inl (h'.symm ▸ h)
    · exact Or.inl (h ▸ h')
    · exact Or.inr ⟨h.trans h', h2.trans h2'⟩⟩

/-- Strict chronological order on `(year, month)` keys. -/
def chronoLt (p q : ℤ × ℕ) : Prop := p.1 < q.1 ∨ (p.1 = q.1 ∧ p.2 < q.2)

/-- The distinct months of the subset, in the ascending order `groupby('month')`
produces. -/
def monthKeys (rows : List MRow) : List ℕ :=
  List.insertionSort (· ≤ ·) (rows.map MRow.month).dedup

/-- The distinct `(year, month)` pairs of the subset, in the ascending order
`groupby(['year','month'])` produces. -/
def ymKeys (rows : List MRow) : List (ℤ × ℕ) :=
  List.insertionSort pairLe (rows.map fun r => (r.year, r.month)).dedup

/-- `monthly.groupby('month').sum()` followed by the `delay_percent` column:
sum column-wise per month, then divide (`none` models the non-finite float on
a zero arrivals sum; no rounding is applied here). -/
def groupAvg (rows : List MRow) : List MonthGroup :=
  (monthKeys rows).map fun m =>
    let grp := rows.filter fun r => decide (r.month = m)
    let sa := (grp.map MRow.arr_flights).sum
    let sd := (grp.map MRow.arr_del15).sum
    { month := m
    , year_sum := (grp.map MRow.year).sum
    , arr_flights := sa
    , arr_del15 := sd
    , delay_percent := if sa = 0 then none else some (sd / sa * 100) }

/-- `monthly.groupby(['year','month']).sum()` with the `delay_percent` and
`date` columns. -/
def groupTimeline (rows : List MRow) : List TimelineGroup :=
  (ymKeys rows).map fun ym =>
    let grp := rows.filter fun r => decide ((r.year, r.month) = ym)
    let sa := (grp.map MRow.arr_flights).sum
    let sd := (grp.map MRow.arr_del15).sum
    { year := ym.1
    , month := ym.2
    , arr_flights := sa
    , arr_del15 := sd
    , delay_percent := if sa = 0 then none else some (sd / sa * 100)
    , date := (ym.1, ym.2, 1) }

/-- The data behind the chart `plot_monthly_delays` draws: one of the two
grouped dataframes. -/
inductive MonthlyChart where
  | avg : List MonthGroup → MonthlyChart
  | timeline : List TimelineGroup → MonthlyChart
deriving DecidableEq

/-- The radio-button label selecting average-by-month mode. -/
def avgViewType : List Char := "Average by Month (all years combined)".toList

/-- The radio-button label selecting timeline mode. -/
def timelineViewType : List Char := "Timeline (month by month over years)".toList

/-- `plot_monthly_delays(df, airport_code, airline_name, view_type)`, returning
the charted dataframe; `none` models the early `st.info` return on an empty
subset. -/
def plot_monthly_delays (df : List DelayRecord) (airport_code airline_name : List Char)
    (view_type : List Char) : Option MonthlyChart :=
  let monthly := (filterRecords df airport_code airline_name).map toMRow
  if monthly = [] then none
  else if view_type = avgViewType then some (.avg (groupAvg monthly))
  else some (.timeline (groupTimeline monthly))

/-- The five cause sums of `plot_delay_cause_pie`, in the order the code lists
them. -/
def causeTotals (filtered : List DelayRecord) : List (List Char × ℚ) :=
  [ ("Carrier Delay".toList, (filtered.map DelayRecord.carrier_delay).sum),
    ("Weather Delay".toList, (filtered.map DelayRecord.weather_delay).sum),
    ("NAS Delay".toList, (filtered.map DelayRecord.nas_delay).sum),
    ("Security Delay".toList, (filtered.map DelayRecord.security_delay).sum),
    ("Late Aircraft".toList, (filtered.map DelayRecord.late_aircraft_delay).sum) ]

/-- `plot_delay_cause_pie(df, airport_code, airline_name)`, returning the
dataframe behind the pie chart (`delay_df[delay_df["Minutes"] > 0]`); `none`
models the early `st.info` return on an empty subset. -/
def plot_delay_cause_pie (df : List DelayRecord) (airport_code airline_name : List Char) :
    Option (List (List Char × ℚ)) :=
  let filtered := filterRecords df airport_code airline_name
  if filtered = [] then none
  else some ((causeTotals filtered).filter fun p => decide (0 < p.2))

/-! ### Helper lemmas -/

theorem pyInt_intCast (n : ℤ) : pyInt (n : ℚ) = n := by
  unfold pyInt
  rw [Rat.num_intCast, Rat.den_intCast, Nat.cast_one]
  split
  · exact Int.ediv_one n
  · rw [Int.ediv_one, neg_neg]

theorem strLt_nil_right (b : List Char) : strLt b [] = false := by
  cases b <;> rfl

theorem strLt_irrefl (s : List Char) : strLt s s = false := by
  induction s with
  | nil => rfl
  | cons c cs ih => simp [strLt, ih, lt_irrefl]

theorem strLt_trans : ∀ (a b c : List Char),
    strLt a b = true → strLt b c = true → strLt a c = true := by
  intro a
  induction a with
  | nil =>
    intro b c _ h2
    cases c with
    | nil => rw [strLt_nil_right] at h2; exact absurd h2 (by simp)
    | cons d ds => rfl
  | cons x xs ih =>
    intro b c h1 h2
    cases b with
    | nil => rw [strLt_nil_right] at h1; exact absurd h1 (by simp)
    | cons y ys =>
      cases c with
      | nil => rw [strLt_nil_right] at h2; exact absurd h2 (by simp)
      | cons z zs =>
        simp only [strLt] at h1 h2 ⊢
        by_cases hxy : x < y
        · by_cases hyz : y < z
          · rw [if_pos (lt_trans hxy hyz)]
          · by_cases hzy : z < y
            · rw [if_neg hyz, if_pos hzy] at h2; exact absurd h2 (by simp)
            · have hyzeq : y = z := le_antisymm (not_lt.mp hzy) (not_lt.mp hyz)
              have hxz : x < z := by rw [← hyzeq]; exact hxy
              rw [if_pos hxz]
        · by_cases hyx : y < x
          · rw [if_neg hxy, if_pos hyx] at h1; exact absurd h1 (by simp)
          · have hxyeq : x = y := le_antisymm (not_lt.mp hyx) (not_lt.mp hxy)
            rw [if_neg hxy, if_neg hyx] at h1
            by_cases hyz : y < z
            · have hxz : x < z := by rw [hxyeq]; exact hyz
              rw [if_pos hxz]
            · by_cases hzy : z < y
              · rw [if_neg hyz, if_pos hzy] at h2; exact absurd h2 (by simp)
              · have hxz : ¬ x < z := by rw [hxyeq]; exact hyz
                have hzx : ¬ z < x := by rw [hxyeq]; exact hzy
                rw [if_neg hyz, if_neg hzy] at h2
                rw [if_neg hxz, if_neg hzx]
                exact ih ys zs h1 h2

theorem strLt_asymm {u v : List Char} (h : strLt u v = true) : strLt v u = false := by
  cases hvu : strLt v u with
  | false => rfl
  | true => exact absurd (strLt_trans u v u h hvu) (by simp [strLt_irrefl])

theorem strLt_eq_of_both_false : ∀ (u v : List Char),
    strLt u v = false → strLt v u = false → u = v := by
  intro u
  induction u with
  | nil =>
    intro v h1 _
    cases v with
    | nil => rfl
    | cons d ds => exact absurd h1 (by simp [strLt])
  | cons c cs ih =>
    intro v h1 h2
    cases v with
    | nil => exact absurd h2 (by simp [strLt])
    | cons d ds =>
      simp only [strLt] at h1 h2
      by_cases hcd : c < d
      · rw [if_pos hcd] at h1; exact absurd h1 (by simp)
      · by_cases hdc : d < c
        · rw [if_pos hdc] at h2; exact absurd h2 (by simp)
        · have hcdeq : c = d := le_antisymm (not_lt.mp hdc) (not_lt.mp hcd)
          rw [if_neg hcd, if_neg hdc] at h1
          rw [if_neg hdc, if_neg hcd] at h2
          rw [hcdeq, ih ds h1 h2]

theorem strLt_false_iff {u v : List Char} :
    strLt u v = false ↔ (u = v ∨ strLt v u = true) := by
  constructor
  · intro h
    cases hvu : strLt v u with
    | true => exact Or.inr rfl
    | false => exact Or.inl (strLt_eq_of_both_false u v h hvu)
  · rintro (rfl | h)
    · exact strLt_irrefl u
    · exact strLt_asymm h

theorem strLt_false_trans {u v w : List Char}
    (h1 : strLt u v = false) (h2 : strLt v w = false) : strLt u w = false := by
  rcases strLt_false_iff.mp h1 with rfl | h1'
  · exact h2
  · rcases strLt_false_iff.mp h2 with rfl | h2'
    · exact h1
    · exact strLt_false_iff.mpr (Or.inr (strLt_trans w v u h2' h1'))

theorem pairGt_irrefl (x : ℚ × List Char) : pairGt x x = false := by
  simp [pairGt, lt_irrefl, strLt_irrefl]

theorem pairGt_eq_true_iff {x y : ℚ × List Char} :
    pairGt x y = true ↔ (y.1 < x.1 ∨ (y.1 = x.1 ∧ strLt y.2 x.2 = true)) := by
  simp [pairGt]

theorem pairGt_trans {x y z : ℚ × List Char}
    (h1 : pairGt x y = true) (h2 : pairGt y z = true) : pairGt x z = true := by
  rw [pairGt_eq_true_iff] at h1 h2 ⊢
  rcases h1 with h1 | ⟨he1, hs1⟩ <;> rcases h2 with h2 | ⟨he2, hs2⟩
  · exact Or.inl (lt_trans h2 h1)
  · exact Or.inl (he2 ▸ h1)
  · exact Or.inl (he1 ▸ h2)
  · exact Or.inr ⟨he2.trans he1, strLt_trans _ _ _ hs2 hs1⟩

theorem pairGt_eq_false_iff {x y : ℚ × List Char} :
    pairGt x y = false ↔ (¬ y.1 < x.1 ∧ (y.1 = x.1 → strLt y.2 x.2 = false)) := by
  cases h : pairGt x y with
  | true =>
    rw [pairGt_eq_true_iff] at h
    simp only [Bool.true_eq_false, false_iff]
    rcases h with h | ⟨he, hs⟩
    · intro hc; exact hc.1 h
    · intro hc; rw [hc.2 he] at hs; exact absurd hs (by simp)
  | false =>
    simp only [true_iff]
    constructor
    · intro hlt
      have : pairGt x y = true := pairGt_eq_true_iff.mpr (Or.inl hlt)
      rw [h] at this; exact absurd this (by simp)
    · intro he
      cases hs : strLt y.2 x.2 with
      | false => rfl
      | true =>
        have : pairGt x y = true := pairGt_eq_true_iff.mpr (Or.inr ⟨he, hs⟩)
        rw [h] at this; exact absurd this (by simp)

theorem pairGt_false_trans {x b r : ℚ × List Char}
    (h1 : pairGt x b = false) (h2 : pairGt b r = false) : pairGt x r = false := by
  rw [pairGt_eq_false_iff] at h1 h2 ⊢
  obtain ⟨hl1, hs1⟩ := h1
  obtain ⟨hl2, hs2⟩ := h2
  have hxb : x.1 ≤ b.1 := not_lt.mp hl1
  have hbr : b.1 ≤ r.1 := not_lt.mp hl2
  refine ⟨not_lt.mpr (le_trans hxb hbr), ?_⟩
  intro he
  have hbx : b.1 = x.1 := le_antisymm (he ▸ hbr) hxb
  have hrb : r.1 = b.1 := he.trans hbx.symm
  exact strLt_false_trans (hs2 hrb) (hs1 hbx)

theorem maxFrom_mem : ∀ (l : List (ℚ × List Char)) (best : ℚ × List Char),
    maxFrom best l ∈ best :: l := by
  intro l
  induction l with
  | nil => intro best; simp [maxFrom]
  | cons x xs ih =>
    intro best
    simp only [maxFrom]
    rcases List.mem_cons.mp (ih (if pairGt x best then x else best)) with h | h
    · rw [h]
      split
      · exact List.mem_cons_of_mem _ (List.mem_cons_self _ _)
      · exact List.mem_cons_self _ _
    · exact List.mem_cons_of_mem _ (List.mem_cons_of_mem _ h)

theorem maxFrom_not_gt : ∀ (l : List (ℚ × List Char)) (best : ℚ × List Char),
    ∀ q ∈ best :: l, pairGt q (maxFrom best l) = false := by
  intro l
  induction l with
  | nil =>
    intro best q hq
    rcases List.mem_cons.mp hq with rfl | h
    · exact pairGt_irrefl q
    · exact absurd h (List.not_mem_nil q)
  | cons x xs ih =>
    intro best q hq
    simp only [maxFrom]
    by_cases hx : pairGt x best = true
    · rw [if_pos hx]
      rcases List.mem_cons.mp hq with rfl | hq'
      · -- q = best: x > best and x is no greater than the running max
        have hxm : pairGt x (maxFrom x xs) = false := ih x x (List.mem_cons_self x xs)
        cases hb : pairGt q (maxFrom x xs) with
        | false => rfl
        | true => exact absurd (pairGt_trans hx hb) (by rw [hxm]; simp)
      · exact ih x q hq'
    · rw [if_neg (by simpa using hx)]
      rcases List.mem_cons.mp hq with rfl | hq'
      · exact ih q q (List.mem_cons_self q xs)
      · rcases List.mem_cons.mp hq' with rfl | hq''
        · -- q = x with ¬(x > best): x ≤ best ≤ running max
          have hbm : pairGt best (maxFrom best xs) = false :=
            ih best best (List.mem_cons_self best xs)
          exact pairGt_false_trans (by simpa using hx) hbm
        · exact ih best q (List.mem_cons_of_mem _ hq'')

theorem pyMax?_spec {l : List (ℚ × List Char)} {p : ℚ × List Char}
    (h : pyMax? l = some p) : p ∈ l ∧ ∀ q ∈ l, pairGt q p = false := by
  cases l with
  | nil => exact absurd h (by simp [pyMax?])
  | cons x xs =>
    have hp : maxFrom x xs = p := by simpa [pyMax?] using h
    subst hp
    exact ⟨maxFrom_mem xs x, maxFrom_not_gt xs x⟩

theorem mem_range'_iff {s n m : Nat} : m ∈ List.range' s n ↔ s ≤ m ∧ m < s + n := by
  rw [List.mem_range']
  constructor
  · rintro ⟨i, hi, rfl⟩; omega
  · intro h; exact ⟨m - s, by omega, by omega⟩

theorem bestSize_le (a b : List Char) (alo ahi blo bhi : Nat) :
    bestSize a b alo ahi blo bhi ≤ min (ahi - alo) (bhi - blo) :=
  Nat.findGreatest_le _

theorem bestSize_exists {a b : List Char} {alo ahi blo bhi : Nat}
    (h : bestSize a b alo ahi blo bhi ≠ 0) :
    existsBlockOfSize a b alo ahi blo bhi (bestSize a b alo ahi blo bhi) = true :=
  Nat.findGreatest_of_ne_zero rfl h

theorem block_spec {a b : List Char} {alo ahi blo bhi : Nat}
    (hk : bestSize a b alo ahi blo bhi ≠ 0) :
    alo ≤ bestI a b alo ahi blo bhi (bestSize a b alo ahi blo bhi) ∧
    bestI a b alo ahi blo bhi (bestSize a b alo ahi blo bhi)
        + bestSize a b alo ahi blo bhi ≤ ahi ∧
    blo ≤ bestJ a b blo bhi ahi (bestI a b alo ahi blo bhi (bestSize a b alo ahi blo bhi))
        (bestSize a b alo ahi blo bhi) ∧
    bestJ a b blo bhi ahi (bestI a b alo ahi blo bhi (bestSize a b alo ahi blo bhi))
        (bestSize a b alo ahi blo bhi) + bestSize a b alo ahi blo bhi ≤ bhi ∧
    (a.drop (bestI a b alo ahi blo bhi (bestSize a b alo ahi blo bhi))).take
        (bestSize a b alo ahi blo bhi)
      = (b.drop (bestJ a b blo bhi ahi
          (bestI a b alo ahi blo bhi (bestSize a b alo ahi blo bhi))
          (bestSize a b alo ahi blo bhi))).take (bestSize a b alo ahi blo bhi) := by
  set k := bestSize a b alo ahi blo bhi with hkdef
  have hex := bestSize_exists hk
  rw [existsBlockOfSize] at hex
  obtain ⟨i0, hi0mem, hi0p⟩ := List.any_eq_true.mp hex
  cases hfind : (List.range' alo (ahi - alo)).find? fun i =>
      (List.range' blo (bhi - blo)).any fun j => validBlock a b ahi bhi i j k with
  | none =>
    exact absurd hi0p (by simpa using List.find?_eq_none.mp hfind i0 hi0mem)
  | some i1 =>
    have hbi : bestI a b alo ahi blo bhi k = i1 := by
      rw [bestI, hfind]; rfl
    have hp1 := List.find?_some hfind
    have hmem1 := List.mem_of_find?_eq_some hfind
    obtain ⟨j0, hj0mem, hj0p⟩ := List.any_eq_true.mp hp1
    cases hfindj : (List.range' blo (bhi - blo)).find? fun j =>
        validBlock a b ahi bhi i1 j k with
    | none =>
      exact absurd hj0p (by simpa using List.find?_eq_none.mp hfindj j0 hj0mem)
    | some j1 =>
      have hbj : bestJ a b blo bhi ahi i1 k = j1 := by
        rw [bestJ, hfindj]; rfl
      have hpj := List.find?_some hfindj
      have hmemj := List.mem_of_find?_eq_some hfindj
      rw [validBlock] at hpj
      simp only [Bool.and_eq_true, decide_eq_true_eq] at hpj
      rw [hbi, hbj]
      exact ⟨(mem_range'_iff.mp hmem1).1, hpj.1.1, (mem_range'_iff.mp hmemj).1,
        hpj.1.2, hpj.2⟩

theorem matchSumAux_le_min (a b : List Char) :
    ∀ fuel alo ahi blo bhi,
      matchSumAux a b fuel alo ahi blo bhi ≤ min (ahi - alo) (bhi - blo) := by
  intro fuel
  induction fuel with
  | zero => intro alo ahi blo bhi; simp [matchSumAux]
  | succ n ih =>
    intro alo ahi blo bhi
    rw [matchSumAux]
    by_cases hk : bestSize a b alo ahi blo bhi = 0
    · simp [hk]
    · obtain ⟨h1, h2, h3, h4, _⟩ := block_spec hk
      simp only [if_neg hk]
      have l1 := ih alo (bestI a b alo ahi blo bhi (bestSize a b alo ahi blo bhi)) blo
        (bestJ a b blo bhi ahi (bestI a b alo ahi blo bhi (bestSize a b alo ahi blo bhi))
          (bestSize a b alo ahi blo bhi))
      have l2 := ih (bestI a b alo ahi blo bhi (bestSize a b alo ahi blo bhi)
          + bestSize a b alo ahi blo bhi) ahi
        (bestJ a b blo bhi ahi (bestI a b alo ahi blo bhi (bestSize a b alo ahi blo bhi))
          (bestSize a b alo ahi blo bhi) + bestSize a b alo ahi blo bhi) bhi
      omega

theorem inter_card_superadd (s₁ s₂ t₁ t₂ : Multiset Char) :
    Multiset.card (s₁ ∩ t₁) + Multiset.card (s₂ ∩ t₂)
      ≤ Multiset.card ((s₁ + s₂) ∩ (t₁ + t₂)) := by
  rw [← Multiset.card_add]
  apply Multiset.card_le_card
  rw [Multiset.le_iff_count]
  intro a
  simp only [Multiset.count_add, Multiset.count_inter]
  omega

theorem interLen_superadd (x₁ x₂ y₁ y₂ : List Char) :
    interLen x₁ y₁ + interLen x₂ y₂ ≤ interLen (x₁ ++ x₂) (y₁ ++ y₂) := by
  unfold interLen
  rw [← Multiset.coe_add, ← Multiset.coe_add]
  exact inter_card_superadd _ _ _ _

theorem interLen_superadd3 (x₁ x₂ x₃ y₁ y₂ y₃ : List Char) :
    interLen x₁ y₁ + interLen x₂ y₂ + interLen x₃ y₃
      ≤ interLen (x₁ ++ (x₂ ++ x₃)) (y₁ ++ (y₂ ++ y₃)) := by
  have h1 := interLen_superadd x₂ x₃ y₂ y₃
  have h2 := interLen_superadd x₁ (x₂ ++ x₃) y₁ (y₂ ++ y₃)
  omega

theorem multiset_inter_self (s : Multiset Char) : s ∩ s = s := by
  ext a
  simp [Multiset.count_inter]

theorem interLen_self (l : List Char) : interLen l l = l.length := by
  unfold interLen
  rw [multiset_inter_self]
  exact Multiset.coe_card l

theorem take_drop_split (l : List Char) (alo i k ahi : Nat)
    (h1 : alo ≤ i) (h2 : i + k ≤ ahi) :
    (l.drop alo).take (ahi - alo)
      = (l.drop alo).take (i - alo)
        ++ ((l.drop i).take k ++ (l.drop (i + k)).take (ahi - (i + k))) := by
  have e : ahi - alo = (i - alo) + (k + (ahi - (i + k))) := by omega
  rw [e, List.take_add]
  congr 1
  have e1 : (l.drop alo).drop (i - alo) = l.drop i := by
    rw [List.drop_drop]
    congr 1
    omega
  rw [e1, List.take_add, List.drop_drop]

theorem matchSumAux_le_inter (a b : List Char) :
    ∀ fuel alo ahi blo bhi, ahi ≤ a.length → bhi ≤ b.length →
      matchSumAux a b fuel alo ahi blo bhi
        ≤ interLen ((a.drop alo).take (ahi - alo)) ((b.drop blo).take (bhi - blo)) := by
  intro fuel
  induction fuel with
  | zero => intro alo ahi blo bhi _ _; simp [matchSumAux]
  | succ n ih =>
    intro alo ahi blo bhi ha hb
    rw [matchSumAux]
    by_cases hk : bestSize a b alo ahi blo bhi = 0
    · simp [hk]
    · obtain ⟨h1, h2, h3, h4, heq⟩ := block_spec hk
      simp only [if_neg hk]
      set k := bestSize a b alo ahi blo bhi with hkdef
      set i := bestI a b alo ahi blo bhi k with hidef
      set j := bestJ a b blo bhi ahi i k with hjdef
      rw [take_drop_split a alo i k ahi h1 h2, take_drop_split b blo j k bhi h3 h4]
      have hmid : interLen ((a.drop i).take k) ((b.drop j).take k) = k := by
        rw [heq, interLen_self, List.length_take, List.length_drop]
        omega
      have c1 := ih alo i blo j (by omega) (by omega)
      have c3 := ih (i + k) ahi (j + k) bhi ha hb
      have hsup := interLen_superadd3
        ((a.drop alo).take (i - alo)) ((a.drop i).take k)
        ((a.drop (i + k)).take (ahi - (i + k)))
        ((b.drop blo).take (j - blo)) ((b.drop j).take k)
        ((b.drop (j + k)).take (bhi - (j + k)))
      omega

theorem matchSum_le_min (a b : List Char) : matchSum a b ≤ min a.length b.length := by
  have h := matchSumAux_le_min a b (a.length + b.length) 0 a.length 0 b.length
  simpa using h

theorem matchSum_le_interLen (a b : List Char) : matchSum a b ≤ interLen a b := by
  have h := matchSumAux_le_inter a b (a.length + b.length) 0 a.length 0 b.length
    le_rfl le_rfl
  simpa [List.take_length] using h

theorem ratioCalc_mono {m₁ m₂ t : Nat} (h : m₁ ≤ m₂) : ratioCalc m₁ t ≤ ratioCalc m₂ t := by
  unfold ratioCalc
  split
  · exact le_rfl
  · rename_i ht
    have htq : (0 : ℚ) < t := by exact_mod_cast Nat.pos_of_ne_zero ht
    have hm : (2 : ℚ) * m₁ ≤ 2 * m₂ := by
      have : (m₁ : ℚ) ≤ (m₂ : ℚ) := by exact_mod_cast h
      linarith
    exact div_le_div_of_nonneg_right hm htq.le

theorem ratio_le_quick (a b : List Char) : ratioScore a b ≤ quickRatioScore a b :=
  ratioCalc_mono (matchSum_le_interLen a b)

theorem ratio_le_realQuick (a b : List Char) : ratioScore a b ≤ realQuickRatioScore a b :=
  ratioCalc_mono (matchSum_le_min a b)

theorem gate_of_ratio {cutoff : ℚ} {x w : List Char} (h : cutoff ≤ ratioScore x w) :
    cutoff ≤ realQuickRatioScore x w ∧ cutoff ≤ quickRatioScore x w
      ∧ cutoff ≤ ratioScore x w :=
  ⟨le_trans h (ratio_le_realQuick x w), le_trans h (ratio_le_quick x w), h⟩

theorem gcm_eq_none_of_all_below {word : List Char} {cands : List (List Char)} {cutoff : ℚ}
    (h : ∀ c ∈ cands, ratioScore c word < cutoff) :
    get_close_matches1 word cands cutoff = none := by
  unfold get_close_matches1
  have hnil : (cands.filterMap fun x =>
      if cutoff ≤ realQuickRatioScore x word ∧ cutoff ≤ quickRatioScore x word
          ∧ cutoff ≤ ratioScore x word
      then some (ratioScore x word, x) else none) = [] := by
    rw [List.filterMap_eq_nil_iff]
    intro x hx
    rw [if_neg]
    intro hc
    exact absurd hc.2.2 (not_le.mpr (h x hx))
  rw [hnil]
  rfl

theorem gcm_some_spec {word : List Char} {cands : List (List Char)} {cutoff : ℚ}
    {m : List Char} (h : get_close_matches1 word cands cutoff = some m) :
    m ∈ cands ∧ cutoff ≤ ratioScore m word ∧
      (∀ c ∈ cands, cutoff ≤ ratioScore c word →
        pairGt (ratioScore c word, c) (ratioScore m word, m) = false) ∧
      ∀ c ∈ cands, ratioScore c word ≤ ratioScore m word := by
  unfold get_close_matches1 at h
  obtain ⟨p, hp, hpm⟩ := Option.map_eq_some'.mp h
  obtain ⟨hmem, hmax⟩ := pyMax?_spec hp
  obtain ⟨x, hx, hfx⟩ := List.mem_filterMap.mp hmem
  by_cases hg : cutoff ≤ realQuickRatioScore x word ∧ cutoff ≤ quickRatioScore x word
      ∧ cutoff ≤ ratioScore x word
  · rw [if_pos hg] at hfx
    have hpx : p = (ratioScore x word, x) := by
      injection hfx with h'; exact h'.symm
    have hmx : m = x := by rw [← hpm, hpx]
    subst hmx
    have hpfst : p.1 = ratioScore m word := by rw [hpx]
    have hineach : ∀ c ∈ cands, cutoff ≤ ratioScore c word →
        pairGt (ratioScore c word, c) (ratioScore m word, m) = false := by
      intro c hc hcut
      have hcL : (ratioScore c word, c) ∈ cands.filterMap fun x =>
          if cutoff ≤ realQuickRatioScore x word ∧ cutoff ≤ quickRatioScore x word
              ∧ cutoff ≤ ratioScore x word
          then some (ratioScore x word, x) else none := by
        rw [List.mem_filterMap]
        exact ⟨c, hc, by rw [if_pos (gate_of_ratio hcut)]⟩
      have := hmax _ hcL
      rw [hpx] at this
      exact this
    refine ⟨hx, hg.2.2, hineach, ?_⟩
    intro c hc
    by_cases hcut : cutoff ≤ ratioScore c word
    · have hple := hineach c hc hcut
      have := (pairGt_eq_false_iff.mp hple).1
      simpa using not_lt.mp this
    · exact le_trans (le_of_lt (not_le.mp hcut)) hg.2.2
  · rw [if_neg hg] at hfx
    exact absurd hfx (by simp)

theorem fuzzy_of_lookup_none {u : List Char} {cands : List (List Char)}
    (h : lookupAlt (pyLower u) = none) :
    fuzzy_match_airline u cands = get_close_matches1 u cands (2/5) := by
  unfold fuzzy_match_airline
  rw [h]

theorem fuzzy_of_lookup_some {u : List Char} {cands : List (List Char)} {v : List Char}
    (h : lookupAlt (pyLower u) = some v) :
    fuzzy_match_airline u cands = some v := by
  unfold fuzzy_match_airline
  rw [h]

theorem sorted_lt_monthKeys (rows : List MRow) :
    List.Sorted (· < ·) (monthKeys rows) := by
  have hs : List.Sorted (· ≤ ·) (monthKeys rows) := List.sorted_insertionSort _ _
  have hn : (monthKeys rows).Nodup :=
    (List.Perm.nodup_iff (List.perm_insertionSort _ _)).mpr (List.nodup_dedup _)
  exact hs.lt_of_le hn

theorem mem_monthKeys {rows : List MRow} {m : ℕ} :
    m ∈ monthKeys rows ↔ m ∈ rows.map MRow.month := by
  unfold monthKeys
  rw [List.mem_insertionSort]
  exact List.mem_dedup

theorem sorted_chronoLt_ymKeys (rows : List MRow) :
    List.Sorted chronoLt (ymKeys rows) := by
  have hs : List.Sorted pairLe (ymKeys rows) := List.sorted_insertionSort _ _
  have hn : (ymKeys rows).Nodup :=
    (List.Perm.nodup_iff (List.perm_insertionSort _ _)).mpr (List.nodup_dedup _)
  exact List.Pairwise.imp₂ (fun p q hle hne => by
    rcases hle with h | ⟨h1, h2⟩
    · exact Or.inl h
    · exact Or.inr ⟨h1, lt_of_le_of_ne h2 fun hm => hne (Prod.ext h1 hm)⟩) hs hn

theorem mem_ymKeys {rows : List MRow} {p : ℤ × ℕ} :
    p ∈ ymKeys rows ↔ p ∈ rows.map fun r => (r.year, r.month) := by
  unfold ymKeys
  rw [List.mem_insertionSort]
  exact List.mem_dedup

theorem groupAvg_months (rows : List MRow) :
    (groupAvg rows).map MonthGroup.month = monthKeys rows := by
  unfold groupAvg
  generalize monthKeys rows = l
  induction l with
  | nil => rfl
  | cons m ms ih =>
    simp only [List.map_cons] at ih ⊢
    rw [ih]

theorem groupTimeline_keys (rows : List MRow) :
    (groupTimeline rows).map (fun g => (g.year, g.month)) = ymKeys rows := by
  unfold groupTimeline
  generalize ymKeys rows = l
  induction l with
  | nil => rfl
  | cons p ps ih =>
    simp only [List.map_cons] at ih ⊢
    rw [ih]

theorem groupAvg_member {rows : List MRow} {g : MonthGroup} (h : g ∈ groupAvg rows) :
    g.arr_flights = ((rows.filter fun r => decide (r.month = g.month)).map
        MRow.arr_flights).sum ∧
    g.arr_del15 = ((rows.filter fun r => decide (r.month = g.month)).map
        MRow.arr_del15).sum ∧
    g.year_sum = ((rows.filter fun r => decide (r.month = g.month)).map MRow.year).sum ∧
    g.delay_percent = (if g.arr_flights = 0 then none
        else some (g.arr_del15 / g.arr_flights * 100)) := by
  unfold groupAvg at h
  obtain ⟨m, _, rfl⟩ := List.mem_map.mp h
  exact ⟨rfl, rfl, rfl, rfl⟩

theorem groupTimeline_member {rows : List MRow} {g : TimelineGroup}
    (h : g ∈ groupTimeline rows) :
    g.arr_flights = ((rows.filter fun r =>
        decide ((r.year, r.month) = (g.year, g.month))).map MRow.arr_flights).sum ∧
    g.arr_del15 = ((rows.filter fun r =>
        decide ((r.year, r.month) = (g.year, g.month))).map MRow.arr_del15).sum ∧
    g.delay_percent = (if g.arr_flights = 0 then none
        else some (g.arr_del15 / g.arr_flights * 100)) ∧
    g.date = (g.year, g.month, 1) := by
  unfold groupTimeline at h
  obtain ⟨ym, _, rfl⟩ := List.mem_map.mp h
  refine ⟨?_, ?_, rfl, rfl⟩ <;> simp

theorem filterRecords_eq_nil {df : List DelayRecord} {a n : List Char}
    (h : ∀ r ∈ df, r.carrier_name ≠ n) : filterRecords df a n = [] := by
  unfold filterRecords
  rw [List.filter_eq_nil_iff]
  intro r hr
  simp [h r hr]

theorem no_data_of_filter_nil {df : List DelayRecord} {a c : List Char}
    (h : filterRecords df a c = []) :
    get_flight_stats df a c = none
    ∧ (∀ vt, plot_monthly_delays df a c vt = none)
    ∧ plot_delay_cause_pie df a c = none := by
  refine ⟨?_, fun vt => ?_, ?_⟩
  · simp [get_flight_stats, h]
  · simp [plot_monthly_delays, h]
  · simp [plot_delay_cause_pie, h]

/-! ### Concrete data for witnesses and counterexamples -/

/-- A dataset row with all five cause columns zero. -/
def mkRec (y : ℤ) (m : ℕ) (ap cn : List Char) (fl d15 : ℚ) : DelayRecord :=
  { year := y, month := m, airport := ap, carrier_name := cn,
    arr_flights := fl, arr_del15 := d15,
    carrier_delay := 0, weather_delay := 0, nas_delay := 0,
    security_delay := 0, late_aircraft_delay := 0 }

/-- The airport code of the spec's test vectors. -/
def laxS : List Char := "LAX".toList

/-- The carrier name of the spec's test vectors. -/
def deltaS : List Char := "Delta Air Lines Inc.".toList

/-- The spec's two-row summary example: arrivals 100 and 50, delayed 10 and 5. -/
def dfC1 : List DelayRecord :=
  [ mkRec 2019 1 laxS deltaS 100 10,
    mkRec 2019 2 laxS deltaS 50 5 ]

/-- A dataset with one row at a different airport, so (LAX, Delta) matches
nothing. -/
def dfC3 : List DelayRecord := [ mkRec 2019 1 "JFK".toList deltaS 10 1 ]

/-- A matching subset whose summed arrivals are zero. -/
def dfC4 : List DelayRecord := [ mkRec 2019 1 laxS deltaS 0 0 ]

/-- One row whose delay share is 1/3, exposing the absence of rounding in the
monthly series. -/
def dfC5 : List DelayRecord := [ mkRec 2020 1 laxS deltaS 3 1 ]

/-- Two rows of the same month in different years. -/
def dfC5w : List DelayRecord :=
  [ mkRec 2019 3 laxS deltaS 10 1,
    mkRec 2020 3 laxS deltaS 10 2 ]

/-- One row with only carrier-delay minutes. -/
def dfC6 : List DelayRecord :=
  [ { year := 2019, month := 1, airport := laxS, carrier_name := deltaS,
      arr_flights := 10, arr_del15 := 1, carrier_delay := 120, weather_delay := 0,
      nas_delay := 0, security_delay := 0, late_aircraft_delay := 0 } ]

/-- A dataset that names Southwest by its BTS name, not the override table's. -/
def dfC9 : List DelayRecord :=
  [ mkRec 2019 1 laxS "Southwest Airlines Co.".toList 10 1 ]

/-! ### The claims -/

/-- C1: on every non-empty filtered subset whose summed `arr_flights` is not
zero, `get_flight_stats` reports the two sums truncated to integers and the
delay percentage `(delayed sum / arrivals sum) * 100` rounded to two decimal
places.  The second conjunct shows that when the two sums are integral (the
dataset holds counts), rounding the ratio of the raw sums coincides with
rounding the ratio of the truncated values, so both readings of the spec's
formula agree. -/
theorem C1_summary (df : List DelayRecord) (a c : List Char)
    (h1 : filterRecords df a c ≠ [])
    (h2 : ((filterRecords df a c).map DelayRecord.arr_flights).sum ≠ 0) :
    get_flight_stats df a c =
      some { total_arrivals := pyInt ((filterRecords df a c).map DelayRecord.arr_flights).sum
           , total_delays := pyInt ((filterRecords df a c).map DelayRecord.arr_del15).sum
           , delay_percent := some (pyRound2
               (((filterRecords df a c).map DelayRecord.arr_del15).sum
                 / ((filterRecords df a c).map DelayRecord.arr_flights).sum * 100)) }
    ∧ ∀ nA nD : ℤ,
        ((filterRecords df a c).map DelayRecord.arr_flights).sum = (nA : ℚ) →
        ((filterRecords df a c).map DelayRecord.arr_del15).sum = (nD : ℚ) →
        pyRound2 (((filterRecords df a c).map DelayRecord.arr_del15).sum
            / ((filterRecords df a c).map DelayRecord.arr_flights).sum * 100)
          = pyRound2 ((pyInt ((filterRecords df a c).map DelayRecord.arr_del15).sum : ℚ)
              / (pyInt ((filterRecords df a c).map DelayRecord.arr_flights).sum : ℚ)
              * 100) := by
  constructor
  · simp only [get_flight_stats]
    rw [if_neg h1, if_neg h2]
  · intro nA nD hA hD
    rw [hA, hD, pyInt_intCast, pyInt_intCast]

/-- C1 witness: the spec's example — airport LAX, carrier Delta, arrivals
100 and 50, delayed 10 and 5 — yields totals 150 and 15 and exactly 10% . -/
theorem C1_summary_witness :
    filterRecords dfC1 laxS deltaS ≠ []
    ∧ ((filterRecords dfC1 laxS deltaS).map DelayRecord.arr_flights).sum ≠ 0
    ∧ get_flight_stats dfC1 laxS deltaS
        = some { total_arrivals := 150, total_delays := 15, delay_percent := some 10 } := by
  refine ⟨by decide, by decide, ?_⟩
  rw [(C1_summary dfC1 laxS deltaS (by decide) (by decide)).1]
  decide

/-- C2: whenever the case-folded input is a key of the override table,
`fuzzy_match_airline` returns the mapped canonical name for every candidate
set whatsoever — the table takes precedence over fuzzy search, whose scores
are never consulted.  The remaining conjuncts pin down the six fixed table
entries. -/
theorem C2_override (u : List Char) (cands : List (List Char)) (v : List Char)
    (h : lookupAlt (pyLower u) = some v) :
    fuzzy_match_airline u cands = some v
    ∧ lookupAlt "southwest".toList = some "Southwest Airlines".toList
    ∧ lookupAlt "delta".toList = some "Delta Air Lines Inc.".toList
    ∧ lookupAlt "american".toList = some "American Airlines Inc.".toList
    ∧ lookupAlt "united".toList = some "United Air Lines Inc.".toList
    ∧ lookupAlt "alaska".toList = some "Alaska Airlines Inc.".toList
    ∧ lookupAlt "spirit".toList = some "Spirit Airlines".toList :=
  ⟨fuzzy_of_lookup_some h, by decide, by decide, by decide, by decide, by decide, by decide⟩

/-- C2 witness: the input DELTA resolves through the table even against an
empty candidate set. -/
theorem C2_override_witness :
    lookupAlt (pyLower "DELTA".toList) = some "Delta Air Lines Inc.".toList
    ∧ fuzzy_match_airline "DELTA".toList [] = some "Delta Air Lines Inc.".toList :=
  ⟨by decide, (C2_override "DELTA".toList [] "Delta Air Lines Inc.".toList (by decide)).1⟩

/-- C3: a pair with zero matching records makes all three aggregation
operations return `none` ("no data"), an outcome distinct from every
successful `FlightStats` value, in particular from an all-zero one. -/
theorem C3_no_data (df : List DelayRecord) (a c : List Char)
    (h : filterRecords df a c = []) :
    get_flight_stats df a c = none
    ∧ (∀ vt, plot_monthly_delays df a c vt = none)
    ∧ plot_delay_cause_pie df a c = none
    ∧ ∀ s : FlightStats, (none : Option FlightStats) ≠ some s := by
  obtain ⟨g1, g2, g3⟩ := no_data_of_filter_nil h
  exact ⟨g1, g2, g3, fun s h' => Option.noConfusion h'⟩

/-- C3 witness: a dataset whose only row is at another airport gives "no
data" for (LAX, Delta) from every operation. -/
theorem C3_no_data_witness :
    filterRecords dfC3 laxS deltaS = []
    ∧ get_flight_stats dfC3 laxS deltaS = none
    ∧ plot_monthly_delays dfC3 laxS deltaS avgViewType = none
    ∧ plot_monthly_delays dfC3 laxS deltaS timelineViewType = none
    ∧ plot_delay_cause_pie dfC3 laxS deltaS = none := by
  have h := C3_no_data dfC3 laxS deltaS (by decide)
  exact ⟨by decide, h.1, h.2.1 avgViewType, h.2.1 timelineViewType, h.2.2.1⟩

/-- C4: a non-empty matching subset whose summed arrivals are zero still
returns a value (no exception is modelled: every operation is total), with
`delay_percent = none` — the undefined outcome standing for the non-finite
float — which differs from a computed 0%.  Likewise every monthly group (in
either mode) with zero summed arrivals carries the undefined percentage. -/
theorem C4_zero_arrivals (df : List DelayRecord) (a c : List Char)
    (h1 : filterRecords df a c ≠ [])
    (h2 : ((filterRecords df a c).map DelayRecord.arr_flights).sum = 0) :
    (∃ st : FlightStats, get_flight_stats df a c = some st ∧ st.delay_percent = none)
    ∧ (∀ l, plot_monthly_delays df a c avgViewType = some (.avg l) →
        ∀ g ∈ l, g.arr_flights = 0 → g.delay_percent = none)
    ∧ (∀ vt l, plot_monthly_delays df a c vt = some (.timeline l) →
        ∀ g ∈ l, g.arr_flights = 0 → g.delay_percent = none)
    ∧ (none : Option ℚ) ≠ some 0 := by
  refine ⟨?_, ?_, ?_, fun h' => Option.noConfusion h'⟩
  · refine ⟨{ total_arrivals := pyInt ((filterRecords df a c).map DelayRecord.arr_flights).sum
            , total_delays := pyInt ((filterRecords df a c).map DelayRecord.arr_del15).sum
            , delay_percent := none }, ?_, rfl⟩
    simp only [get_flight_stats]
    rw [if_neg h1, if_pos h2]
  · intro l hpm g hg hz
    simp only [plot_monthly_delays] at hpm
    by_cases he : (filterRecords df a c).map toMRow = []
    · rw [if_pos he] at hpm; exact Option.noConfusion hpm
    · rw [if_neg he] at hpm
      simp only [if_true] at hpm
      have hl : groupAvg ((filterRecords df a c).map toMRow) = l := by
        injection hpm with h'
        exact MonthlyChart.avg.inj h'
      rw [← hl] at hg
      obtain ⟨_, _, _, hdp⟩ := groupAvg_member hg
      rw [hdp, if_pos hz]
  · intro vt l hpm g hg hz
    simp only [plot_monthly_delays] at hpm
    by_cases he : (filterRecords df a c).map toMRow = []
    · rw [if_pos he] at hpm; exact Option.noConfusion hpm
    · rw [if_neg he] at hpm
      by_cases hvt : vt = avgViewType
      · rw [if_pos hvt] at hpm
        injection hpm with h'
        exact MonthlyChart.noConfusion h'
      · rw [if_neg hvt] at hpm
        have hl : groupTimeline ((filterRecords df a c).map toMRow) = l := by
          injection hpm with h'
          exact MonthlyChart.timeline.inj h'
        rw [← hl] at hg
        obtain ⟨_, _, hdp, _⟩ := groupTimeline_member hg
        rw [hdp, if_pos hz]

/-- C4 witness: one matching all-zero row — the summary succeeds with an
undefined percentage rather than crashing or reporting 0%. -/
theorem C4_zero_arrivals_witness :
    filterRecords dfC4 laxS deltaS ≠ []
    ∧ ((filterRecords dfC4 laxS deltaS).map DelayRecord.arr_flights).sum = 0
    ∧ (∃ st : FlightStats, get_flight_stats dfC4 laxS deltaS = some st
        ∧ st.delay_percent = none)
    ∧ get_flight_stats dfC4 laxS deltaS
        = some { total_arrivals := 0, total_delays := 0, delay_percent := none } :=
  ⟨by decide, by decide, (C4_zero_arrivals dfC4 laxS deltaS (by decide) (by decide)).1,
    by decide⟩

/-- C5 counterexample: the monthly series does not round.  On one row with
3 arrivals and 1 delayed, the charted monthly percentage is exactly 100/3,
while the summary formula (rounded to two decimals, as the claim states)
would give 33.33 — so the per-month value is not computed by the summary
formula. -/
theorem C5_counterexample :
    plot_monthly_delays dfC5 laxS deltaS avgViewType
      = some (.avg [{ month := 1, year_sum := 2020, arr_flights := 3, arr_del15 := 1,
                      delay_percent := some (100/3) }])
    ∧ pyRound2 ((1 : ℚ) / 3 * 100) = 3333/100
    ∧ (100/3 : ℚ) ≠ 3333/100 :=
  ⟨by decide, by decide, by decide⟩

/-- C5 (amended): in average mode the subset is grouped by month alone with
both count columns summed per month and the percentage computed as
`(delayed/arrivals)*100` — the summary's ratio formula but without its
2-decimal rounding — ordered by ascending month; in timeline mode it is
grouped by `(year, month)` with the same unrounded percentage, a date
`(year, month, 1)` attached, ordered chronologically. -/
theorem C5_monthly_series (df : List DelayRecord) (a c : List Char)
    (h : filterRecords df a c ≠ []) :
    plot_monthly_delays df a c avgViewType
      = some (.avg (groupAvg ((filterRecords df a c).map toMRow)))
    ∧ (∀ vt, vt ≠ avgViewType →
        plot_monthly_delays df a c vt
          = some (.timeline (groupTimeline ((filterRecords df a c).map toMRow))))
    ∧ List.Sorted (· < ·)
        ((groupAvg ((filterRecords df a c).map toMRow)).map MonthGroup.month)
    ∧ (∀ m, m ∈ (groupAvg ((filterRecords df a c).map toMRow)).map MonthGroup.month
        ↔ m ∈ ((filterRecords df a c).map toMRow).map MRow.month)
    ∧ (∀ g ∈ groupAvg ((filterRecords df a c).map toMRow),
        g.arr_flights = ((((filterRecords df a c).map toMRow).filter
            fun r => decide (r.month = g.month)).map MRow.arr_flights).sum
        ∧ g.arr_del15 = ((((filterRecords df a c).map toMRow).filter
            fun r => decide (r.month = g.month)).map MRow.arr_del15).sum
        ∧ g.delay_percent = (if g.arr_flights = 0 then none
            else some (g.arr_del15 / g.arr_flights * 100)))
    ∧ List.Sorted chronoLt
        ((groupTimeline ((filterRecords df a c).map toMRow)).map fun g => (g.year, g.month))
    ∧ (∀ p, p ∈ (groupTimeline ((filterRecords df a c).map toMRow)).map
          (fun g => (g.year, g.month))
        ↔ p ∈ ((filterRecords df a c).map toMRow).map fun r => (r.year, r.month))
    ∧ (∀ g ∈ groupTimeline ((filterRecords df a c).map toMRow),
        g.arr_flights = ((((filterRecords df a c).map toMRow).filter
            fun r => decide ((r.year, r.month) = (g.year, g.month))).map MRow.arr_flights).sum
        ∧ g.arr_del15 = ((((filterRecords df a c).map toMRow).filter
            fun r => decide ((r.year, r.month) = (g.year, g.month))).map MRow.arr_del15).sum
        ∧ g.delay_percent = (if g.arr_flights = 0 then none
            else some (g.arr_del15 / g.arr_flights * 100))
        ∧ g.date = (g.year, g.month, 1)) := by
  have hrows : (filterRecords df a c).map toMRow ≠ [] := by
    intro hc
    exact h (List.map_eq_nil_iff.mp hc)
  refine ⟨?_, ?_, ?_, ?_, ?_, ?_, ?_, ?_⟩
  · simp only [plot_monthly_delays]
    rw [if_neg hrows]
    simp
  · intro vt hvt
    simp only [plot_monthly_delays]
    rw [if_neg hrows, if_neg hvt]
  · rw [groupAvg_months]; exact sorted_lt_monthKeys _
  · intro m; rw [groupAvg_months]; exact mem_monthKeys
  · intro g hg
    obtain ⟨ha, hd, _, hp⟩ := groupAvg_member hg
    exact ⟨ha, hd, hp⟩
  · rw [groupTimeline_keys]; exact sorted_chronoLt_ymKeys _
  · intro p; rw [groupTimeline_keys]; exact mem_ymKeys
  · intro g hg
    exact groupTimeline_member hg

/-- C5 witness: two rows of month 3 in 2019 and 2020 collapse to a single
average-mode entry but remain two chronologically ordered timeline entries. -/
theorem C5_monthly_series_witness :
    filterRecords dfC5w laxS deltaS ≠ []
    ∧ plot_monthly_delays dfC5w laxS deltaS avgViewType
        = some (.avg (groupAvg ((filterRecords dfC5w laxS deltaS).map toMRow)))
    ∧ groupAvg ((filterRecords dfC5w laxS deltaS).map toMRow)
        = [{ month := 3, year_sum := 4039, arr_flights := 20, arr_del15 := 3,
             delay_percent := some 15 }]
    ∧ plot_monthly_delays dfC5w laxS deltaS timelineViewType
        = some (.timeline (groupTimeline ((filterRecords dfC5w laxS deltaS).map toMRow)))
    ∧ groupTimeline ((filterRecords dfC5w laxS deltaS).map toMRow)
        = [{ year := 2019, month := 3, arr_flights := 10, arr_del15 := 1,
             delay_percent := some 10, date := (2019, 3, 1) },
           { year := 2020, month := 3, arr_flights := 10, arr_del15 := 2,
             delay_percent := some 20, date := (2020, 3, 1) }] := by
  refine ⟨by decide, (C5_monthly_series dfC5w laxS deltaS (by decide)).1, by decide,
    (C5_monthly_series dfC5w laxS deltaS (by decide)).2.1 timelineViewType (by decide),
    by decide⟩

/-- C6: on a non-empty subset the pie-chart data sums the five cause columns
independently and keeps exactly the causes whose total is strictly
positive. -/
theorem C6_cause_breakdown (df : List DelayRecord) (a c : List Char)
    (h : filterRecords df a c ≠ []) :
    plot_delay_cause_pie df a c
      = some ((causeTotals (filterRecords df a c)).filter fun p => decide (0 < p.2))
    ∧ causeTotals (filterRecords df a c)
      = [ ("Carrier Delay".toList,
            ((filterRecords df a c).map DelayRecord.carrier_delay).sum),
          ("Weather Delay".toList,
            ((filterRecords df a c).map DelayRecord.weather_delay).sum),
          ("NAS Delay".toList,
            ((filterRecords df a c).map DelayRecord.nas_delay).sum),
          ("Security Delay".toList,
            ((filterRecords df a c).map DelayRecord.security_delay).sum),
          ("Late Aircraft".toList,
            ((filterRecords df a c).map DelayRecord.late_aircraft_delay).sum) ]
    ∧ ∀ p, p ∈ (causeTotals (filterRecords df a c)).filter (fun p => decide (0 < p.2))
        ↔ (p ∈ causeTotals (filterRecords df a c) ∧ 0 < p.2) := by
  refine ⟨?_, rfl, ?_⟩
  · simp only [plot_delay_cause_pie]
    rw [if_neg h]
  · intro p
    rw [List.mem_filter]
    simp

/-- C6 witness: carrier = 120 minutes and every other cause 0 yields exactly
one pie entry, Carrier Delay 120. -/
theorem C6_cause_breakdown_witness :
    filterRecords dfC6 laxS deltaS ≠ []
    ∧ plot_delay_cause_pie dfC6 laxS deltaS
        = some [("Carrier Delay".toList, 120)] := by
  refine ⟨by decide, ?_⟩
  rw [(C6_cause_breakdown dfC6 laxS deltaS (by decide)).1]
  decide

/-- C7: outside the override table, if every candidate scores below the 0.4
cutoff the resolver returns `none`; and any returned match is a candidate
whose similarity score against the raw input reaches the cutoff and is
maximal among all candidates. -/
theorem C7_threshold (u : List Char) (cands : List (List Char))
    (hnt : lookupAlt (pyLower u) = none) :
    ((∀ c ∈ cands, ratioScore c u < 2/5) → fuzzy_match_airline u cands = none)
    ∧ (∀ m, fuzzy_match_airline u cands = some m →
        m ∈ cands ∧ (2/5 : ℚ) ≤ ratioScore m u
          ∧ ∀ c ∈ cands, ratioScore c u ≤ ratioScore m u) := by
  constructor
  · intro hall
    rw [fuzzy_of_lookup_none hnt]
    exact gcm_eq_none_of_all_below hall
  · intro m hm
    rw [fuzzy_of_lookup_none hnt] at hm
    obtain ⟨h1, h2, _, h4⟩ := gcm_some_spec hm
    exact ⟨h1, h2, h4⟩

/-- C7 witness: "zzzz" shares nothing with the lone candidate "abcd"
(score 0 < 0.4), so resolution reports no match. -/
theorem C7_threshold_witness :
    lookupAlt (pyLower "zzzz".toList) = none
    ∧ (∀ c ∈ ["abcd".toList], ratioScore c "zzzz".toList < 2/5)
    ∧ fuzzy_match_airline "zzzz".toList ["abcd".toList] = none := by
  refine ⟨by decide, by decide, ?_⟩
  exact (C7_threshold "zzzz".toList ["abcd".toList] (by decide)).1 (by decide)

/-- C8 counterexample: with input "abcd" the candidates "abxy" and "xyab"
both score 1/2 ≥ 0.4 and tie, yet the resolver returns "xyab" — not the
first tied candidate in iteration order, refuting the claimed tie-break. -/
theorem C8_counterexample :
    (2/5 : ℚ) ≤ ratioScore "abxy".toList "abcd".toList
    ∧ ratioScore "abxy".toList "abcd".toList = ratioScore "xyab".toList "abcd".toList
    ∧ lookupAlt (pyLower "abcd".toList) = none
    ∧ fuzzy_match_airline "abcd".toList ["abxy".toList, "xyab".toList]
        = some "xyab".toList
    ∧ fuzzy_match_airline "abcd".toList ["abxy".toList, "xyab".toList]
        ≠ some "abxy".toList :=
  ⟨by decide, by decide, by decide, by decide, by decide⟩

/-- C8 (amended): among threshold-clearing candidates tied at the maximal
score, the resolver returns the one whose string is greatest in Python's
lexicographic string order (the `(score, candidate)` pairs are compared as
tuples), not the first in candidate-set iteration order. -/
theorem C8_tiebreak (u : List Char) (cands : List (List Char))
    (hnt : lookupAlt (pyLower u) = none) (m : List Char)
    (hm : fuzzy_match_airline u cands = some m) :
    ∀ c ∈ cands, (2/5 : ℚ) ≤ ratioScore c u → ratioScore c u = ratioScore m u →
      c = m ∨ strLt c m = true := by
  rw [fuzzy_of_lookup_none hnt] at hm
  obtain ⟨_, _, h3, _⟩ := gcm_some_spec hm
  intro c hc hcut heq
  have hng := h3 c hc hcut
  rw [pairGt_eq_false_iff] at hng
  have hsf : strLt m c = false := hng.2 heq.symm
  rcases strLt_false_iff.mp hsf with h' | h'
  · exact Or.inl h'.symm
  · exact Or.inr h'

/-- C8 witness: in the tied example the returned "xyab" is lexicographically
above the passed-over "abxy". -/
theorem C8_tiebreak_witness :
    lookupAlt (pyLower "abcd".toList) = none
    ∧ fuzzy_match_airline "abcd".toList ["abxy".toList, "xyab".toList]
        = some "xyab".toList
    ∧ ("abxy".toList = "xyab".toList ∨ strLt "abxy".toList "xyab".toList = true) :=
  ⟨by decide, by decide,
    C8_tiebreak "abcd".toList ["abxy".toList, "xyab".toList] (by decide) "xyab".toList
      (by decide) "abxy".toList (by decide) (by decide) (by decide)⟩

/-- C9: the override table is applied without checking membership in the
candidate set: "southwest" resolves to "Southwest Airlines" for every
candidate set; and when no record carries that exact name — even though the
airline is present as "Southwest Airlines Co." at the requested airport —
all three aggregations report "no data". -/
theorem C9_override_not_in_candidates (df : List DelayRecord) (a : List Char)
    (cands : List (List Char))
    (hno : ∀ r ∈ df, r.carrier_name ≠ "Southwest Airlines".toList)
    (_hex : ∃ r ∈ df, r.airport = a ∧ r.carrier_name = "Southwest Airlines Co.".toList) :
    fuzzy_match_airline "southwest".toList cands = some "Southwest Airlines".toList
    ∧ get_flight_stats df a "Southwest Airlines".toList = none
    ∧ (∀ vt, plot_monthly_delays df a "Southwest Airlines".toList vt = none)
    ∧ plot_delay_cause_pie df a "Southwest Airlines".toList = none := by
  obtain ⟨g1, g2, g3⟩ := no_data_of_filter_nil (filterRecords_eq_nil hno)
  exact ⟨fuzzy_of_lookup_some (by decide), g1, g2, g3⟩

/-- C9 witness: with the dataset naming the carrier "Southwest Airlines Co.",
the resolved "Southwest Airlines" finds nothing at LAX. -/
theorem C9_override_not_in_candidates_witness :
    (∀ r ∈ dfC9, r.carrier_name ≠ "Southwest Airlines".toList)
    ∧ (∃ r ∈ dfC9, r.airport = laxS
        ∧ r.carrier_name = "Southwest Airlines Co.".toList)
    ∧ fuzzy_match_airline "southwest".toList ["Southwest Airlines Co.".toList]
        = some "Southwest Airlines".toList
    ∧ get_flight_stats dfC9 laxS "Southwest Airlines".toList = none := by
  have h := C9_override_not_in_candidates dfC9 laxS ["Southwest Airlines Co.".toList]
    (by decide) (by decide)
  exact ⟨by decide, by decide, h.1, h.2.1⟩

/-- C10: the four core operations are pure Lean functions of their listed
arguments (the dataset, the query, the candidate set, and the fixed override
table baked into `fuzzy_match_airline`), so repeated invocation on identical
inputs yields identical outputs; the embedding carries no other state. -/
theorem C10_determinism (u : List Char) (cands : List (List Char))
    (df : List DelayRecord) (a c vt : List Char) :
    fuzzy_match_airline u cands = fuzzy_match_airline u cands
    ∧ get_flight_stats df a c = get_flight_stats df a c
    ∧ plot_monthly_delays df a c vt = plot_monthly_delays df a c vt
    ∧ plot_delay_cause_pie df a c = plot_delay_cause_pie df a c :=
  ⟨rfl, rfl, rfl, rfl⟩

end FlightDelay

